import Mathlib

/-!
Verification of the `EmoScores` orchestration layer of the emoatlas library
(`emoatlas/emolib.py`).

The development shallowly embeds, in Lean, the parts of `emolib.py` that the
checked properties concern:

* the Formamentis network container (a namedtuple `(edges, vertices)` whose
  `edges` field is either a flat list of vertex pairs or a dict from edge kind
  to a list of pairs) and `EmoScores.extract_word_from_formamentis`;
* `EmoScores.export_formamentis` / `EmoScores.import_formamentis`, modelling
  the file content as a list of characters (a Python `str`) and reproducing
  Python's line iteration, `str.split(",")`, and `str.strip()`;
* the mutable scorer state (`_baseline`, `_lookup`, `_stem_or_lem`,
  `emotionslist`, ...) together with `__init__`, `set_stemming_lemmatization`,
  `set_baseline` and `zscores`.

The modules `emoatlas.baselines` and `emoatlas.emo_scores` are not part of the
analysed sources; the only behaviour of theirs that the properties depend on —
the null-sample cache discipline of `es._zscores` — is modelled from the spec
(see `lookupOrSample`).  The numeric content of baselines and of resampling
statistics is irrelevant to every property below, so both are abstracted as
type parameters `B` (baseline objects) and `S` (cached mean/std statistics),
and the stochastic resampling step is an explicit function parameter `sample`:
all theorems hold for every choice of these parameters.
-/

/-! ### Python string primitives used by `import_formamentis` -/

/-- A Python `str` is modelled as its sequence of characters. -/
abbrev Word := List Char

/-- Whitespace characters removed by Python's `str.strip()`: exactly the
code points for which CPython's `str.isspace()` holds -- the ASCII whitespace
(tab, newline, vertical tab, form feed, carriage return, space), the
separator controls U+001C-U+001F, next line U+0085, no-break space U+00A0,
ogham space mark U+1680, the U+2000-U+200A spaces, line separator U+2028,
paragraph separator U+2029, narrow no-break space U+202F, medium
mathematical space U+205F, and ideographic space U+3000. -/
def pyIsWs (c : Char) : Bool :=
  c == ' ' || c == '\t' || c == '\n' || c == '\x0b' || c == '\x0c' || c == '\r' ||
    c == '\x1c' || c == '\x1d' || c == '\x1e' || c == '\x1f' ||
    c == '\x85' || c == '\xa0' || c == '\u1680' ||
    c == '\u2000' || c == '\u2001' || c == '\u2002' || c == '\u2003' ||
    c == '\u2004' || c == '\u2005' || c == '\u2006' || c == '\u2007' ||
    c == '\u2008' || c == '\u2009' || c == '\u200a' ||
    c == '\u2028' || c == '\u2029' || c == '\u202f' || c == '\u205f' ||
    c == '\u3000'

/-- Python `str.strip()`: drop leading and trailing whitespace. -/
def pyStrip (w : Word) : Word :=
  ((w.dropWhile pyIsWs).reverse.dropWhile pyIsWs).reverse

/-- Python `str.split(sep)` for a one-character separator: `"".split(",") = [""]`,
`"a,b".split(",") = ["a", "b"]`, `"a,".split(",") = ["a", ""]`. -/
def splitOnChar (c : Char) : List Char → List Word
  | [] => [[]]
  | x :: xs =>
    match splitOnChar c xs with
    | [] => [[]]
    | h :: t => if x = c then [] :: h :: t else (x :: h) :: t

/-! ### Formamentis networks and `extract_word_from_formamentis` -/

/-- Edge container of a Formamentis network: either a flat list of vertex
pairs, or (multiplex shape) a dict from edge kind to its own list of pairs.
The source dispatches on `type(fmn.edges) != dict`; a Python dict preserves
insertion order, so it is modelled as an association list. -/
inductive FmnEdges (α : Type) where
  | flat : List (α × α) → FmnEdges α
  | multi : List (String × List (α × α)) → FmnEdges α
deriving DecidableEq

/-- The `FormamentisNetwork` namedtuple `(edges, vertices)`. -/
structure FormamentisNetwork (α : Type) where
  edges : FmnEdges α
  vertices : List α
deriving DecidableEq

/-- Python `target_word in edge` for a pair: membership of the target among
the two endpoints. -/
def edgeIncident {α : Type} [DecidableEq α] (w : α) (e : α × α) : Bool :=
  decide (e.1 = w) || decide (e.2 = w)

/-- Both endpoints of an edge, in order (`itertools.chain` over a pair). -/
def edgeEndpoints {α : Type} (e : α × α) : List α :=
  [e.1, e.2]

/-- `EmoScores.extract_word_from_formamentis` (emolib.py lines 374-426).
Flat shape: `new_edgelist` keeps the edges containing `target_word`,
`final_vertex = set(itertools.chain(*new_edgelist))`, and `final_edgelist`
keeps the original edges whose two endpoints both lie in `final_vertex`.
Multiplex shape: `final_vertex` is accumulated as the union over all edge
kinds, and the both-endpoints filter is applied to each kind separately,
keeping every kind key.  CPython materialises `list(final_vertex)` in an
unspecified set order; the model fixes one concrete order (first occurrence),
and every vertex-level property below is stated up to set membership. -/
def extract_word_from_formamentis {α : Type} [DecidableEq α]
    (fmn : FormamentisNetwork α) (target_word : α) : FormamentisNetwork α :=
  match fmn.edges with
  | FmnEdges.flat es =>
    let new_edgelist := es.filter (edgeIncident target_word)
    let final_vertex := (new_edgelist.flatMap edgeEndpoints).dedup
    let final_edgelist :=
      es.filter (fun e => decide (e.1 ∈ final_vertex) && decide (e.2 ∈ final_vertex))
    ⟨FmnEdges.flat final_edgelist, final_vertex⟩
  | FmnEdges.multi kes =>
    let final_vertex :=
      (kes.flatMap (fun kv => (kv.2.filter (edgeIncident target_word)).flatMap edgeEndpoints)).dedup
    let final_edgelist :=
      kes.map (fun kv =>
        (kv.1, kv.2.filter (fun e => decide (e.1 ∈ final_vertex) && decide (e.2 ∈ final_vertex))))
    ⟨FmnEdges.multi final_edgelist, final_vertex⟩

/-- Follows the spec's words for target-word restriction of a flat network:
"the set of edges incident to the target, then the union of those edges'
endpoints as the new vertex set". -/
def specTargetVertexSet {α : Type} [DecidableEq α] (es : List (α × α)) (w : α) : Finset α :=
  ((es.filter (edgeIncident w)).flatMap edgeEndpoints).toFinset

/-- Follows the spec's words for the multiplex shape: "the vertex set is the
union over all edge kinds" of the endpoints of the edges incident to the
target. -/
def specTargetVertexSetMulti {α : Type} [DecidableEq α]
    (kes : List (String × List (α × α))) (w : α) : Finset α :=
  (((kes.flatMap (fun kv => kv.2)).filter (edgeIncident w)).flatMap edgeEndpoints).toFinset

/-! ### `export_formamentis` and `import_formamentis` -/

/-- `EmoScores.export_formamentis` (emolib.py lines 658-691): the file content
written for a flat edge list, one line `f"{pair[0]} , {pair[1]}\n"` per edge.
(The source does not support the multiplex shape, per its docstring.) -/
def export_formamentis (edges : List (Word × Word)) : List Char :=
  (edges.map (fun p => p.1 ++ [' ', ',', ' '] ++ p.2 ++ ['\n'])).flatten

/-- Universal-newline translation performed by `open(filepath, "r")` in text
mode before any line is yielded: each `"\r\n"` pair and each bare `"\r"`
becomes `"\n"`.  (The next-line character `\x85` is not a text-mode line
terminator and passes through.) -/
def pyTranslateNewlines : List Char → List Char
  | [] => []
  | '\r' :: '\n' :: rest => '\n' :: pyTranslateNewlines rest
  | '\r' :: rest => '\n' :: pyTranslateNewlines rest
  | c :: rest => c :: pyTranslateNewlines rest

/-- Python's `for line in file` over a file content: universal-newline
translation, then the chunks between newline characters, except the empty
chunk after a trailing newline.  The trailing `"\n"` kept by Python on each
yielded line is dropped here; every consumer below strips the line ends, so
the two conventions agree. -/
def fileLines (content : List Char) : List Word :=
  let parts := splitOnChar '\n' (pyTranslateNewlines content)
  if parts.getLast? = some ([] : Word) then parts.dropLast else parts

/-- One line of `import_formamentis`:
`vertex1, vertex2 = map(str.strip, line.split(","))`.  A line whose split does
not have exactly two fields makes the unpacking raise `ValueError`, modelled
as `none`. -/
def parseLine (line : Word) : Option (Word × Word) :=
  match splitOnChar ',' line with
  | [v1, v2] => Option.some (pyStrip v1, pyStrip v2)
  | _ => Option.none

/-- The read loop of `import_formamentis`: parse every line, propagating a
`ValueError` from any line. -/
def parseAll : List Word → Option (List (Word × Word))
  | [] => Option.some []
  | l :: ls =>
    match parseLine l, parseAll ls with
    | Option.some e, Option.some es => Option.some (e :: es)
    | _, _ => Option.none

/-- Python `sorted` on a collection of strings (lexicographic by code point,
which is the `≤` of `List Char`). -/
def sortWords (l : List Word) : List Word :=
  List.insertionSort (· ≤ ·) l

/-- `EmoScores.import_formamentis` (emolib.py lines 693-726): edges collected
in file order, vertex set accumulated as a Python set of all endpoints and
returned as a sorted list. -/
def import_formamentis (content : List Char) : Option (FormamentisNetwork Word) :=
  match parseAll (fileLines content) with
  | Option.none => Option.none
  | Option.some edges =>
    Option.some ⟨FmnEdges.flat edges, sortWords ((edges.flatMap edgeEndpoints).dedup)⟩

/-- Well-formedness of an edge-list file: every line has exactly one comma
separating its two fields. -/
def wellFormedFile (content : List Char) : Prop :=
  ∀ line ∈ fileLines content, (splitOnChar ',' line).length = 2

/-- Conditions on a vertex word under which one exported line survives the
round trip: no comma (the field separator), no newline and no carriage return
(the line structure), and no leading or trailing whitespace (removed by
`str.strip` on import). -/
def wordOk (w : Word) : Prop :=
  ',' ∉ w ∧ '\n' ∉ w ∧ '\r' ∉ w ∧
    w.dropWhile pyIsWs = w ∧ (w.reverse.dropWhile pyIsWs).reverse = w

/-! ### The `EmoScores` instance state -/

/-- Values accepted by the `baseline` parameters of `set_baseline` and
`zscores` per their docstrings: "Either a list of lists, a text, or None."
Rational numbers stand in for the numeric entries of a distribution; no
property below depends on them. -/
inductive PyVal where
  | pyNone : PyVal
  | pyStr : String → PyVal
  | pyList : List (List ℚ) → PyVal
deriving DecidableEq

/-- Python truthiness of a `PyVal`: `None`, `""` and `[]` are falsy. -/
def pyTruthy : PyVal → Bool
  | PyVal.pyNone => false
  | PyVal.pyStr s => !s.isEmpty
  | PyVal.pyList l => !l.isEmpty

/-- The Python exception relevant to the embedded methods: an attribute
lookup on a name the instance never assigned. -/
inductive PyError where
  | attributeError : PyError
deriving DecidableEq

/-- The mutable state of an `EmoScores` instance, restricted to the fields the
verified methods read or write.  `B` abstracts baseline objects
(`_baseline`), `S` abstracts the cached per-sample-size resampling statistics
stored in `_lookup`; `emotionslist` is an `Option` because `__init__` assigns
the attribute only for the `"plutchik"` emotion model. -/
structure EmoScores (B S : Type) where
  language : String
  stem_or_lem : String
  lexicon_mode : String
  stemmer_loaded : Bool
  emotionslist : Option (List String)
  emotion_model : Option String
  baseline : B
  lookup : List (Nat × S)
deriving DecidableEq

/-- The fixed Plutchik emotion list assigned by `__init__` (emolib.py lines
54-65). -/
def plutchikEmotions : List String :=
  ["anger", "trust", "surprise", "disgust", "joy", "sadness", "fear", "anticipation"]

/-- `EmoScores.__init__` (emolib.py lines 30-65).  `initBaseline` stands for
the result of `_make_baseline(language, emotion_lexicon)` and `initLookup` for
the table loaded by `_load_lookup_table(language)`; both live in modules
outside the analysed sources and only their values matter here.  For any
`emotion_model` other than `"plutchik"` the constructor still returns
normally, leaving `emotionslist` and `_emotion_model` unassigned. -/
def emoInit {B S : Type} (language emotion_model : String)
    (initBaseline : B) (initLookup : List (Nat × S)) : EmoScores B S :=
  { language := language
    stem_or_lem := "lemmatization"
    lexicon_mode := "lemmatization"
    stemmer_loaded := false
    emotionslist :=
      if emotion_model = "plutchik" then Option.some plutchikEmotions else Option.none
    emotion_model :=
      if emotion_model = "plutchik" then Option.some "plutchik" else Option.none
    baseline := initBaseline
    lookup := initLookup }

/-- `EmoScores.set_stemming_lemmatization` (emolib.py lines 67-74): reloads
the lexicon and idiomatic tokens for the new mode, records the mode, loads the
stemmer on first use.  It touches neither `_baseline` nor `_lookup`. -/
def set_stemming_lemmatization {B S : Type} (st : EmoScores B S)
    (stem_or_lem : String) : EmoScores B S :=
  { st with
    lexicon_mode := stem_or_lem
    stem_or_lem := stem_or_lem
    stemmer_loaded := st.stemmer_loaded || stem_or_lem = "stemming" }

/-- `EmoScores.set_baseline` (emolib.py lines 76-98): replaces `_baseline`
with `_make_baseline(baseline, ...)` (abstracted as `mkB`) and resets the
null-sample cache: `self._lookup = {}`. -/
def set_baseline {B S : Type} (mkB : PyVal → B) (st : EmoScores B S)
    (baseline : PyVal) : EmoScores B S :=
  { st with baseline := mkB baseline, lookup := [] }

/-- Modelled from the spec: the null-sample cache discipline of
`es._zscores`, whose module `emoatlas.emo_scores` is not among the analysed
sources.  Spec 4.4: "If the Null-Sample Cache has an entry for `n`, reuse its
(mean, standard-deviation) pair; otherwise draw `n_samples` independent
samples ..., compute the per-emotion mean and standard deviation ...; store in
the cache keyed by `n`."  The resampling outcome is the function parameter
`sample` applied to the baseline, `n_samples` and `n`; the cache dict passed
by reference from the instance is threaded as explicit state. -/
def lookupOrSample {B S : Type} (sample : B → Nat → Nat → S)
    (st : EmoScores B S) (b : B) (n_samples n : Nat) : S × EmoScores B S :=
  match List.lookup n st.lookup with
  | Option.some s => (s, st)
  | Option.none =>
    let s := sample b n_samples n
    (s, { st with lookup := (n, s) :: st.lookup })

/-- `EmoScores.zscores` (emolib.py lines 151-213) for an observed input of
word count `n`.  The glue in the source: a falsy `baseline` argument selects
the stored `self._baseline` (rebuilding it via `_make_baseline(None, ...)`
if that too is falsy, mutating the instance); a truthy argument is converted
by `_make_baseline` into a per-call baseline.  Either way the call forwards
`emotions=self.emotionslist` (an `AttributeError` when that attribute was
never assigned) and the instance cache `lookup=self._lookup` to
`es._zscores`.  The returned triple carries the forwarded emotion list, the
statistics used, and the instance state after the call. -/
def zscores {B S : Type} (mkB : PyVal → B) (baselineTruthy : B → Bool)
    (sample : B → Nat → Nat → S) (st : EmoScores B S) (baseline : PyVal)
    (n_samples n : Nat) : Except PyError (List String × S × EmoScores B S) :=
  let sel : B × EmoScores B S :=
    if pyTruthy baseline then (mkB baseline, st)
    else if baselineTruthy st.baseline then (st.baseline, st)
    else (mkB PyVal.pyNone, { st with baseline := mkB PyVal.pyNone })
  match sel.2.emotionslist with
  | Option.none => Except.error PyError.attributeError
  | Option.some l =>
    let r := lookupOrSample sample sel.2 sel.1 n_samples n
    Except.ok (l, r.1, r.2)

/-- The `emotions=self.emotionslist` argument forwarded by
`EmoScores.emotions` (emolib.py line 144) to `es._get_emotions`: an
`AttributeError` when the attribute was never assigned. -/
def emotions_emotionslist_arg {B S : Type} (st : EmoScores B S) :
    Except PyError (List String) :=
  match st.emotionslist with
  | Option.none => Except.error PyError.attributeError
  | Option.some l => Except.ok l

/-- The statistics component of a `zscores` outcome, when the call did not
raise. -/
def zstats {B S : Type} : Except PyError (List String × S × EmoScores B S) → Option S
  | Except.ok r => Option.some r.2.1
  | Except.error _ => Option.none

/-! ### Concrete scenario used by closed witnesses and counterexamples -/

/-- Concrete `_make_baseline` outcome function: the instance default baseline
built from `None` is object `3`, any supplied corpus or distribution builds
object `2`. -/
def cexMkB : PyVal → ℕ := fun v =>
  match v with
  | PyVal.pyNone => 3
  | PyVal.pyStr _ => 2
  | PyVal.pyList _ => 2

/-- Concrete truthiness of baseline objects: every object except `0` is
truthy (a populated distribution). -/
def cexBT : ℕ → Bool := fun b => b != 0

/-- Concrete resampling outcome: statistics `100 * baseline + sample_size`,
so distinct baselines yield distinct statistics at every size. -/
def cexSample : ℕ → ℕ → ℕ → ℕ := fun b _ n => 100 * b + n

/-- Concrete freshly constructed scorer whose persisted lookup table caches
statistics `99` for sample size `5`, computed under the initial baseline
object `1`. -/
def cexState : EmoScores ℕ ℕ := emoInit "english" "plutchik" 1 [(5, 99)]

/-- Concrete freshly constructed scorer with an empty null-sample cache. -/
def cexStateMiss : EmoScores ℕ ℕ := emoInit "english" "plutchik" 1 []

/-! ### Helper definitions and lemmas for target-word restriction -/

/-- The vertex set built by the flat arm of `extract_word_from_formamentis`
(the `final_vertex` local), as a named term for the proofs below. -/
def flatNbhd {α : Type} [DecidableEq α] (es : List (α × α)) (w : α) : List α :=
  ((es.filter (edgeIncident w)).flatMap edgeEndpoints).dedup

/-- The vertex set built by the multiplex arm of
`extract_word_from_formamentis`, as a named term for the proofs below. -/
def multiNbhd {α : Type} [DecidableEq α] (kes : List (String × List (α × α))) (w : α) : List α :=
  (kes.flatMap (fun kv => (kv.2.filter (edgeIncident w)).flatMap edgeEndpoints)).dedup

theorem extract_flat_eq {α : Type} [DecidableEq α] (es : List (α × α)) (vs : List α) (w : α) :
    extract_word_from_formamentis ⟨FmnEdges.flat es, vs⟩ w =
      ⟨FmnEdges.flat (es.filter (fun e =>
          decide (e.1 ∈ flatNbhd es w) && decide (e.2 ∈ flatNbhd es w))),
        flatNbhd es w⟩ :=
  rfl

theorem extract_multi_eq {α : Type} [DecidableEq α]
    (kes : List (String × List (α × α))) (vs : List α) (w : α) :
    extract_word_from_formamentis ⟨FmnEdges.multi kes, vs⟩ w =
      ⟨FmnEdges.multi (kes.map (fun kv => (kv.1, kv.2.filter (fun e =>
          decide (e.1 ∈ multiNbhd kes w) && decide (e.2 ∈ multiNbhd kes w))))),
        multiNbhd kes w⟩ :=
  rfl

theorem mem_flatNbhd {α : Type} [DecidableEq α] {es : List (α × α)} {w v : α} :
    v ∈ flatNbhd es w ↔ ∃ e ∈ es, edgeIncident w e = true ∧ (v = e.1 ∨ v = e.2) := by
  simp only [flatNbhd, List.mem_dedup, List.mem_flatMap, List.mem_filter, edgeEndpoints,
    List.mem_cons, List.mem_singleton, List.not_mem_nil, or_false]
  constructor
  · rintro ⟨e, ⟨he, hi⟩, hv⟩
    exact ⟨e, he, hi, hv⟩
  · rintro ⟨e, he, hi, hv⟩
    exact ⟨e, ⟨he, hi⟩, hv⟩

theorem mem_multiNbhd {α : Type} [DecidableEq α]
    {kes : List (String × List (α × α))} {w v : α} :
    v ∈ multiNbhd kes w ↔
      ∃ kv ∈ kes, ∃ e ∈ kv.2, edgeIncident w e = true ∧ (v = e.1 ∨ v = e.2) := by
  simp only [multiNbhd, List.mem_dedup, List.mem_flatMap, List.mem_filter, edgeEndpoints,
    List.mem_cons, List.mem_singleton, List.not_mem_nil, or_false]
  constructor
  · rintro ⟨kv, hkv, e, ⟨he, hi⟩, hv⟩
    exact ⟨kv, hkv, e, he, hi, hv⟩
  · rintro ⟨kv, hkv, e, he, hi, hv⟩
    exact ⟨kv, hkv, e, ⟨he, hi⟩, hv⟩

theorem endpoints_mem_flatNbhd {α : Type} [DecidableEq α] {es : List (α × α)} {w : α}
    {e : α × α} (he : e ∈ es) (hi : edgeIncident w e = true) :
    e.1 ∈ flatNbhd es w ∧ e.2 ∈ flatNbhd es w := by
  constructor <;> rw [mem_flatNbhd]
  · exact ⟨e, he, hi, Or.inl rfl⟩
  · exact ⟨e, he, hi, Or.inr rfl⟩

theorem endpoints_mem_multiNbhd {α : Type} [DecidableEq α]
    {kes : List (String × List (α × α))} {w : α} {kv : String × List (α × α)} {e : α × α}
    (hkv : kv ∈ kes) (he : e ∈ kv.2) (hi : edgeIncident w e = true) :
    e.1 ∈ multiNbhd kes w ∧ e.2 ∈ multiNbhd kes w := by
  constructor <;> rw [mem_multiNbhd]
  · exact ⟨kv, hkv, e, he, hi, Or.inl rfl⟩
  · exact ⟨kv, hkv, e, he, hi, Or.inr rfl⟩

theorem filter_both_then_incident {α : Type} [DecidableEq α] (es : List (α × α)) (w : α) :
    (es.filter (fun e => decide (e.1 ∈ flatNbhd es w) && decide (e.2 ∈ flatNbhd es w))).filter
        (edgeIncident w) =
      es.filter (edgeIncident w) := by
  rw [List.filter_filter]
  apply List.filter_congr
  intro e he
  cases hi : edgeIncident w e with
  | false => simp
  | true =>
    obtain ⟨h1, h2⟩ := endpoints_mem_flatNbhd he hi
    simp [h1, h2]

theorem filter_both_then_incident_multi {α : Type} [DecidableEq α]
    (kes : List (String × List (α × α))) (w : α) {kv : String × List (α × α)}
    (hkv : kv ∈ kes) :
    (kv.2.filter (fun e =>
        decide (e.1 ∈ multiNbhd kes w) && decide (e.2 ∈ multiNbhd kes w))).filter
        (edgeIncident w) =
      kv.2.filter (edgeIncident w) := by
  rw [List.filter_filter]
  apply List.filter_congr
  intro e he
  cases hi : edgeIncident w e with
  | false => simp
  | true =>
    obtain ⟨h1, h2⟩ := endpoints_mem_multiNbhd hkv he hi
    simp [h1, h2]

theorem flatNbhd_extract {α : Type} [DecidableEq α] (es : List (α × α)) (w : α) :
    flatNbhd (es.filter (fun e =>
        decide (e.1 ∈ flatNbhd es w) && decide (e.2 ∈ flatNbhd es w))) w =
      flatNbhd es w := by
  show (((es.filter (fun e =>
      decide (e.1 ∈ flatNbhd es w) && decide (e.2 ∈ flatNbhd es w))).filter
        (edgeIncident w)).flatMap edgeEndpoints).dedup = flatNbhd es w
  rw [filter_both_then_incident]
  rfl

theorem multiNbhd_extract {α : Type} [DecidableEq α]
    (kes : List (String × List (α × α))) (w : α) :
    multiNbhd (kes.map (fun kv => (kv.1, kv.2.filter (fun e =>
        decide (e.1 ∈ multiNbhd kes w) && decide (e.2 ∈ multiNbhd kes w))))) w =
      multiNbhd kes w := by
  show ((kes.map (fun kv => (kv.1, kv.2.filter (fun e =>
      decide (e.1 ∈ multiNbhd kes w) && decide (e.2 ∈ multiNbhd kes w))))).flatMap
        (fun kv => (kv.2.filter (edgeIncident w)).flatMap edgeEndpoints)).dedup =
      multiNbhd kes w
  rw [List.flatMap_map]
  congr 1
  apply List.flatMap_congr
  intro kv hkv
  show ((kv.2.filter (fun e =>
      decide (e.1 ∈ multiNbhd kes w) && decide (e.2 ∈ multiNbhd kes w))).filter
        (edgeIncident w)).flatMap edgeEndpoints =
      (kv.2.filter (edgeIncident w)).flatMap edgeEndpoints
  rw [filter_both_then_incident_multi kes w hkv]

theorem mem_spec_iff_mem_flatNbhd {α : Type} [DecidableEq α]
    {es : List (α × α)} {w v : α} :
    v ∈ specTargetVertexSet es w ↔ v ∈ flatNbhd es w := by
  simp [specTargetVertexSet, flatNbhd, List.mem_toFinset, List.mem_dedup]

theorem mem_specMulti_iff_mem_multiNbhd {α : Type} [DecidableEq α]
    {kes : List (String × List (α × α))} {w v : α} :
    v ∈ specTargetVertexSetMulti kes w ↔ v ∈ multiNbhd kes w := by
  simp only [specTargetVertexSetMulti, List.mem_toFinset, List.mem_flatMap, List.mem_filter,
    multiNbhd, List.mem_dedup]
  constructor
  · rintro ⟨e, ⟨⟨kv, hkv, he⟩, hi⟩, hv⟩
    exact ⟨kv, hkv, e, ⟨he, hi⟩, hv⟩
  · rintro ⟨kv, hkv, e, ⟨he, hi⟩, hv⟩
    exact ⟨e, ⟨⟨kv, hkv, he⟩, hi⟩, hv⟩

/-- C3.  Target-word restriction computes, for the flat shape, exactly the
three spec steps: edges incident to the target, endpoint union as the new
vertex set (`specTargetVertexSet`), and the filter keeping the original edges
with both endpoints in that set — a depth-1 neighborhood closure, not a
transitive subgraph induction, since the filter runs over the original edge
list with the fixed incident-endpoint vertex set.  For the multiplex shape
the vertex set is the union over all edge kinds
(`specTargetVertexSetMulti`) and the same both-endpoints filter is applied
per kind, preserving the kind keys. -/
theorem extract_word_matches_spec {α : Type} [DecidableEq α]
    (es : List (α × α)) (kes : List (String × List (α × α)))
    (vs vs2 : List α) (w : α) :
    (extract_word_from_formamentis ⟨FmnEdges.flat es, vs⟩ w).edges =
        FmnEdges.flat (es.filter (fun e =>
          decide (e.1 ∈ specTargetVertexSet es w ∧ e.2 ∈ specTargetVertexSet es w))) ∧
      (∀ v, v ∈ (extract_word_from_formamentis ⟨FmnEdges.flat es, vs⟩ w).vertices ↔
        v ∈ specTargetVertexSet es w) ∧
      (extract_word_from_formamentis ⟨FmnEdges.multi kes, vs2⟩ w).edges =
        FmnEdges.multi (kes.map (fun kv => (kv.1, kv.2.filter (fun e =>
          decide (e.1 ∈ specTargetVertexSetMulti kes w ∧
            e.2 ∈ specTargetVertexSetMulti kes w))))) ∧
      (∀ v, v ∈ (extract_word_from_formamentis ⟨FmnEdges.multi kes, vs2⟩ w).vertices ↔
        v ∈ specTargetVertexSetMulti kes w) := by
  have hdec : ∀ v : α, decide (v ∈ specTargetVertexSet es w) = decide (v ∈ flatNbhd es w) :=
    fun v => decide_eq_decide.mpr mem_spec_iff_mem_flatNbhd
  have hdec2 : ∀ v : α,
      decide (v ∈ specTargetVertexSetMulti kes w) = decide (v ∈ multiNbhd kes w) :=
    fun v => decide_eq_decide.mpr mem_specMulti_iff_mem_multiNbhd
  refine ⟨?_, ?_, ?_, ?_⟩
  · rw [extract_flat_eq]
    simp only [Bool.decide_and, hdec]
  · intro v
    rw [extract_flat_eq]
    exact mem_spec_iff_mem_flatNbhd.symm
  · rw [extract_multi_eq]
    simp only [Bool.decide_and, hdec2]
  · intro v
    rw [extract_multi_eq]
    exact mem_specMulti_iff_mem_multiNbhd.symm

/-- C4.  Target-word restriction is idempotent: restricting the result of a
restriction to the same target word leaves the edge collection equal (as an
ordered collection, kind keys included for the multiplex shape) and the
vertex set equal (as a set — CPython materialises the vertex list from a
`set` in unspecified order, so vertex equality is stated by membership). -/
theorem extract_word_idempotent {α : Type} [DecidableEq α]
    (fmn : FormamentisNetwork α) (w : α) :
    (extract_word_from_formamentis (extract_word_from_formamentis fmn w) w).edges =
        (extract_word_from_formamentis fmn w).edges ∧
      (∀ v, v ∈ (extract_word_from_formamentis
          (extract_word_from_formamentis fmn w) w).vertices ↔
        v ∈ (extract_word_from_formamentis fmn w).vertices) := by
  obtain ⟨edges, vs⟩ := fmn
  cases edges with
  | flat es =>
    rw [extract_flat_eq, extract_flat_eq]
    have hv := flatNbhd_extract es w
    constructor
    · simp only [hv]
      congr 1
      apply List.filter_eq_self.mpr
      intro e he
      exact (List.mem_filter.mp he).2
    · intro v
      simp only [hv]
  | multi kes =>
    rw [extract_multi_eq, extract_multi_eq]
    have hv := multiNbhd_extract kes w
    constructor
    · simp only [hv]
      congr 1
      rw [List.map_map]
      apply List.map_congr_left
      intro kv hkv
      simp only [Function.comp_apply]
      congr 1
      apply List.filter_eq_self.mpr
      intro e he
      exact (List.mem_filter.mp he).2
    · intro v
      simp only [hv]

/-- C9.  A target word incident to no edge yields a valid empty result: for a
flat network an empty edge list and an empty vertex list; for a multiplex
network every original edge kind is kept as a key with an empty edge list,
and the vertex list is empty. -/
theorem extract_word_absent_target {α : Type} [DecidableEq α]
    (es : List (α × α)) (kes : List (String × List (α × α)))
    (vs vs2 : List α) (w : α)
    (hflat : ∀ e ∈ es, ¬(e.1 = w ∨ e.2 = w))
    (hmux : ∀ kv ∈ kes, ∀ e ∈ kv.2, ¬(e.1 = w ∨ e.2 = w)) :
    extract_word_from_formamentis ⟨FmnEdges.flat es, vs⟩ w =
        ⟨FmnEdges.flat [], []⟩ ∧
      extract_word_from_formamentis ⟨FmnEdges.multi kes, vs2⟩ w =
        ⟨FmnEdges.multi (kes.map (fun kv => (kv.1, []))), []⟩ := by
  have hnbf : flatNbhd es w = [] := by
    have : es.filter (edgeIncident w) = [] := by
      apply List.filter_eq_nil_iff.mpr
      intro e he
      simp only [edgeIncident, Bool.or_eq_true, decide_eq_true_eq]
      exact hflat e he
    simp [flatNbhd, this]
  have hnbm : multiNbhd kes w = [] := by
    have : ∀ kv ∈ kes, (kv.2.filter (edgeIncident w)).flatMap edgeEndpoints = [] := by
      intro kv hkv
      have : kv.2.filter (edgeIncident w) = [] := by
        apply List.filter_eq_nil_iff.mpr
        intro e he
        simp only [edgeIncident, Bool.or_eq_true, decide_eq_true_eq]
        exact hmux kv hkv e he
      simp [this]
    rw [multiNbhd, List.flatMap_congr this]
    simp
  constructor
  · rw [extract_flat_eq]
    simp [hnbf]
  · rw [extract_multi_eq]
    simp [hnbm]

/-- Witness for `extract_word_absent_target` at a concrete network: target
word `5` occurs in no edge of the flat network `[(1, 2)]` nor of the
multiplex network `{"synonyms": [(1, 2)]}`. -/
theorem extract_word_absent_target_witness :
    (∀ e ∈ [((1 : ℕ), 2)], ¬(e.1 = 5 ∨ e.2 = 5)) ∧
      (∀ kv ∈ [("synonyms", [((1 : ℕ), 2)])], ∀ e ∈ kv.2, ¬(e.1 = 5 ∨ e.2 = 5)) ∧
      extract_word_from_formamentis ⟨FmnEdges.flat [((1 : ℕ), 2)], [1, 2]⟩ 5 =
        ⟨FmnEdges.flat [], []⟩ ∧
      extract_word_from_formamentis
          ⟨FmnEdges.multi [("synonyms", [((1 : ℕ), 2)])], [1, 2]⟩ 5 =
        ⟨FmnEdges.multi [("synonyms", [])], []⟩ :=
  ⟨by decide, by decide,
    extract_word_absent_target [((1 : ℕ), 2)] [("synonyms", [(1, 2)])] [1, 2] [1, 2] 5
      (by decide) (by decide)⟩

/-! ### The cache and baseline claims -/

/-- C2.  `set_baseline` (with any argument, `None` included) resets the
null-sample cache to the empty dict, so a `zscores` call for a sample size
`n` that was cached before the `set_baseline` call finds no entry and
computes its statistics by fresh resampling against the newly selected
baseline — it does not reuse the previously cached pair. -/
theorem set_baseline_clears_cache {B S : Type} (mkB : PyVal → B) (bT : B → Bool)
    (sp : B → Nat → Nat → S) (st : EmoScores B S) (arg arg2 : PyVal) (ns n : Nat)
    (sOld : S) (l : List String)
    (hl : st.emotionslist = Option.some l)
    (_hc : List.lookup n st.lookup = Option.some sOld) :
    (set_baseline mkB st arg).lookup = [] ∧
      zstats (zscores mkB bT sp (set_baseline mkB st arg) arg2 ns n) =
        Option.some (sp (if pyTruthy arg2 then mkB arg2
          else if bT (mkB arg) then mkB arg else mkB PyVal.pyNone) ns n) := by
  refine ⟨rfl, ?_⟩
  unfold zscores set_baseline lookupOrSample zstats
  cases h2 : pyTruthy arg2 <;> cases h3 : bT (mkB arg) <;>
    simp [h2, h3, hl, List.lookup]

/-- Witness for `set_baseline_clears_cache`: the concrete scorer caches
statistics `99` for size `5`; after `set_baseline(None)` the cache is empty
and a `zscores` call at size `5` resamples freshly. -/
theorem set_baseline_clears_cache_witness :
    cexState.emotionslist = Option.some plutchikEmotions ∧
      List.lookup 5 cexState.lookup = Option.some 99 ∧
      (set_baseline cexMkB cexState PyVal.pyNone).lookup = [] ∧
      zstats (zscores cexMkB cexBT cexSample
          (set_baseline cexMkB cexState PyVal.pyNone) (PyVal.pyStr "text") 300 5) =
        Option.some (cexSample (if pyTruthy (PyVal.pyStr "text") then cexMkB (PyVal.pyStr "text")
          else if cexBT (cexMkB PyVal.pyNone) then cexMkB PyVal.pyNone
          else cexMkB PyVal.pyNone) 300 5) :=
  ⟨by decide, by decide,
    set_baseline_clears_cache cexMkB cexBT cexSample cexState PyVal.pyNone
      (PyVal.pyStr "text") 300 5 99 plutchikEmotions (by decide) (by decide)⟩

/-- C1 (amended).  Only `set_baseline` clears the null-sample cache:
`set_stemming_lemmatization` changes the lemmatization/stemming mode but
leaves both the stored baseline and the cache untouched, and a `zscores`
call with an explicit (truthy) per-call `baseline` argument consults the same
instance cache without clearing it.  In both situations a cached entry for
the requested sample size is returned as-is, even though it was computed
under the previous baseline. -/
theorem cache_survives_mode_change_and_per_call_baseline {B S : Type}
    (mkB : PyVal → B) (bT : B → Bool) (sp : B → Nat → Nat → S)
    (st : EmoScores B S) (mode : String) (arg arg2 : PyVal) (ns n : Nat)
    (s : S) (l : List String)
    (hl : st.emotionslist = Option.some l)
    (hc : List.lookup n st.lookup = Option.some s)
    (ht : pyTruthy arg2 = true) :
    (set_stemming_lemmatization st mode).lookup = st.lookup ∧
      (set_stemming_lemmatization st mode).baseline = st.baseline ∧
      zstats (zscores mkB bT sp (set_stemming_lemmatization st mode) arg ns n) =
        Option.some s ∧
      zstats (zscores mkB bT sp st arg2 ns n) = Option.some s := by
  refine ⟨rfl, rfl, ?_, ?_⟩
  · unfold zscores lookupOrSample zstats set_stemming_lemmatization
    cases h1 : pyTruthy arg <;> cases h2 : bT st.baseline <;>
      simp [h1, h2, hl, hc]
  · unfold zscores lookupOrSample zstats
    simp [ht, hl, hc]

/-- Witness for `cache_survives_mode_change_and_per_call_baseline` on the
concrete scorer caching `99` for size `5`. -/
theorem cache_survives_witness :
    cexState.emotionslist = Option.some plutchikEmotions ∧
      List.lookup 5 cexState.lookup = Option.some 99 ∧
      pyTruthy (PyVal.pyStr "corpus") = true ∧
      (set_stemming_lemmatization cexState "stemming").lookup = cexState.lookup ∧
      (set_stemming_lemmatization cexState "stemming").baseline = cexState.baseline ∧
      zstats (zscores cexMkB cexBT cexSample
          (set_stemming_lemmatization cexState "stemming") PyVal.pyNone 300 5) =
        Option.some 99 ∧
      zstats (zscores cexMkB cexBT cexSample cexState (PyVal.pyStr "corpus") 300 5) =
        Option.some 99 :=
  ⟨by decide, by decide, by decide,
    cache_survives_mode_change_and_per_call_baseline cexMkB cexBT cexSample cexState
      "stemming" PyVal.pyNone (PyVal.pyStr "corpus") 300 5 99 plutchikEmotions
      (by decide) (by decide) (by decide)⟩

/-- C1 counterexample.  The claim "after `set_stemming_lemmatization` or a
`zscores` call with an explicit per-call baseline, no cache entry computed
under the previous baseline is ever reused" is false on the code: the
concrete scorer holds the entry `99` for size `5` computed under baseline
object `1`; a `zscores` call with the explicit per-call baseline `"corpus"`
(baseline object `2`) returns the stale `99` instead of its fresh resampling
result `205`, and after `set_stemming_lemmatization("stemming")` a plain
`zscores` call at size `5` again returns the stale `99` instead of `105`. -/
theorem cache_cleared_counterexample :
    zscores cexMkB cexBT cexSample cexState (PyVal.pyStr "corpus") 300 5 =
        Except.ok (plutchikEmotions, 99, cexState) ∧
      zscores cexMkB cexBT cexSample
          (set_stemming_lemmatization cexState "stemming") PyVal.pyNone 300 5 =
        Except.ok (plutchikEmotions, 99, set_stemming_lemmatization cexState "stemming") ∧
      cexSample (cexMkB (PyVal.pyStr "corpus")) 300 5 = 205 ∧
      cexSample cexState.baseline 300 5 = 105 ∧
      (99 : ℕ) ≠ 205 ∧ (99 : ℕ) ≠ 105 :=
  ⟨rfl, rfl, rfl, rfl, by decide, by decide⟩

/-- C7.  A scorer constructed with `emotion_model="plutchik"` stores exactly
the eight Plutchik emotions, in the fixed display order of the source, and
this very list is what `emotions` and `zscores` forward to the scoring
engine. -/
theorem plutchik_emotionslist {B S : Type} (iB : B) (iLk : List (Nat × S))
    (lang : String) (mkB : PyVal → B) (bT : B → Bool) (sp : B → Nat → Nat → S)
    (arg : PyVal) (ns n : Nat) :
    (emoInit lang "plutchik" iB iLk : EmoScores B S).emotionslist =
        Option.some plutchikEmotions ∧
      plutchikEmotions =
        ["anger", "trust", "surprise", "disgust", "joy", "sadness", "fear",
          "anticipation"] ∧
      emotions_emotionslist_arg (emoInit lang "plutchik" iB iLk : EmoScores B S) =
        Except.ok plutchikEmotions ∧
      ∃ r st', zscores mkB bT sp (emoInit lang "plutchik" iB iLk) arg ns n =
        Except.ok (plutchikEmotions, r, st') := by
  refine ⟨rfl, rfl, rfl, ?_⟩
  unfold zscores lookupOrSample
  cases h1 : pyTruthy arg <;> cases h2 : bT iB <;>
    cases hlk : List.lookup n iLk <;>
      simp [h1, h2, hlk, emoInit]

/-- C8.  A constructor call with any `emotion_model` other than `"plutchik"`
is not rejected at construction time: it returns an instance whose
`emotionslist` (and `_emotion_model`) attribute was never assigned, so every
later `emotions` or `zscores` call fails with an attribute-lookup error
rather than a configuration error at construction. -/
theorem non_plutchik_defers_attribute_failure {B S : Type} (iB : B)
    (iLk : List (Nat × S)) (lang m : String) (mkB : PyVal → B) (bT : B → Bool)
    (sp : B → Nat → Nat → S) (arg : PyVal) (ns n : Nat)
    (hm : m ≠ "plutchik") :
    (emoInit lang m iB iLk : EmoScores B S).emotionslist = Option.none ∧
      (emoInit lang m iB iLk : EmoScores B S).emotion_model = Option.none ∧
      emotions_emotionslist_arg (emoInit lang m iB iLk : EmoScores B S) =
        Except.error PyError.attributeError ∧
      zscores mkB bT sp (emoInit lang m iB iLk) arg ns n =
        Except.error PyError.attributeError := by
  have h1 : (emoInit lang m iB iLk : EmoScores B S).emotionslist = Option.none := by
    simp [emoInit, hm]
  refine ⟨h1, by simp [emoInit, hm], ?_, ?_⟩
  · simp [emotions_emotionslist_arg, h1]
  · unfold zscores
    cases hp : pyTruthy arg <;> cases hb : bT iB <;>
      simp [hp, hb, emoInit, hm]

/-- Witness for `non_plutchik_defers_attribute_failure` at the concrete
emotion model `"nrc"`. -/
theorem non_plutchik_witness :
    "nrc" ≠ "plutchik" ∧
      (emoInit "english" "nrc" (1 : ℕ) ([] : List (ℕ × ℕ))).emotionslist =
        Option.none ∧
      (emoInit "english" "nrc" (1 : ℕ) ([] : List (ℕ × ℕ))).emotion_model =
        Option.none ∧
      emotions_emotionslist_arg (emoInit "english" "nrc" (1 : ℕ) ([] : List (ℕ × ℕ))) =
        Except.error PyError.attributeError ∧
      zscores cexMkB cexBT cexSample (emoInit "english" "nrc" 1 []) PyVal.pyNone 300 5 =
        Except.error PyError.attributeError :=
  ⟨by decide,
    non_plutchik_defers_attribute_failure 1 [] "english" "nrc" cexMkB cexBT cexSample
      PyVal.pyNone 300 5 (by decide)⟩

/-- C10.  `zscores` branches on Python truthiness of its `baseline` argument:
`None`, the empty string and the empty list are all falsy and silently select
the instance's stored baseline (no validation, no failure), while any truthy
argument is converted by `_make_baseline` into a per-call baseline used for
that call's resampling. -/
theorem zscores_falsy_fallback {B S : Type} (mkB : PyVal → B) (bT : B → Bool)
    (sp : B → Nat → Nat → S) (st : EmoScores B S) (argF argT : PyVal)
    (ns n : Nat) (l : List String)
    (hl : st.emotionslist = Option.some l)
    (hmiss : List.lookup n st.lookup = Option.none)
    (hbt : bT st.baseline = true)
    (hf : pyTruthy argF = false) (ht : pyTruthy argT = true) :
    pyTruthy PyVal.pyNone = false ∧
      pyTruthy (PyVal.pyStr "") = false ∧
      pyTruthy (PyVal.pyList []) = false ∧
      zscores mkB bT sp st argF ns n =
        Except.ok (l, sp st.baseline ns n,
          { st with lookup := (n, sp st.baseline ns n) :: st.lookup }) ∧
      zscores mkB bT sp st argT ns n =
        Except.ok (l, sp (mkB argT) ns n,
          { st with lookup := (n, sp (mkB argT) ns n) :: st.lookup }) := by
  refine ⟨rfl, rfl, rfl, ?_, ?_⟩
  · unfold zscores lookupOrSample
    simp [hf, hbt, hl, hmiss]
  · unfold zscores lookupOrSample
    simp [ht, hl, hmiss]

/-- Witness for `zscores_falsy_fallback` on the concrete scorer with an
empty cache: the empty list argument falls back to the stored baseline `1`,
the string `"corpus"` builds the per-call baseline `2`. -/
theorem zscores_falsy_fallback_witness :
    cexStateMiss.emotionslist = Option.some plutchikEmotions ∧
      List.lookup 5 cexStateMiss.lookup = Option.none ∧
      cexBT cexStateMiss.baseline = true ∧
      pyTruthy (PyVal.pyList []) = false ∧
      pyTruthy (PyVal.pyStr "corpus") = true ∧
      zscores cexMkB cexBT cexSample cexStateMiss (PyVal.pyList []) 300 5 =
        Except.ok (plutchikEmotions, cexSample cexStateMiss.baseline 300 5,
          { cexStateMiss with
            lookup := (5, cexSample cexStateMiss.baseline 300 5) :: cexStateMiss.lookup }) ∧
      zscores cexMkB cexBT cexSample cexStateMiss (PyVal.pyStr "corpus") 300 5 =
        Except.ok (plutchikEmotions, cexSample (cexMkB (PyVal.pyStr "corpus")) 300 5,
          { cexStateMiss with
            lookup := (5, cexSample (cexMkB (PyVal.pyStr "corpus")) 300 5) ::
              cexStateMiss.lookup }) := by
  refine ⟨by decide, by decide, by decide, by decide, by decide, ?_, ?_⟩
  · exact (zscores_falsy_fallback cexMkB cexBT cexSample cexStateMiss (PyVal.pyList [])
      (PyVal.pyStr "corpus") 300 5 plutchikEmotions (by decide) (by decide) (by decide)
      (by decide) (by decide)).2.2.2.1
  · exact (zscores_falsy_fallback cexMkB cexBT cexSample cexStateMiss (PyVal.pyList [])
      (PyVal.pyStr "corpus") 300 5 plutchikEmotions (by decide) (by decide) (by decide)
      (by decide) (by decide)).2.2.2.2

/-! ### Lemmas on the file format of `export_formamentis` / `import_formamentis` -/

theorem splitOnChar_ne_nil (c : Char) (l : List Char) : splitOnChar c l ≠ [] := by
  induction l with
  | nil => simp [splitOnChar]
  | cons x xs ih =>
    simp only [splitOnChar]
    cases h : splitOnChar c xs with
    | nil => simp
    | cons hh tt => by_cases hx : x = c <;> simp [hx]

theorem splitOnChar_of_not_mem {c : Char} {l : List Char} (h : c ∉ l) :
    splitOnChar c l = [l] := by
  induction l with
  | nil => rfl
  | cons x xs ih =>
    have hx : ¬x = c := fun he => h (he ▸ List.mem_cons_self x xs)
    have hxs : c ∉ xs := fun hm => h (List.mem_cons_of_mem _ hm)
    simp only [splitOnChar, ih hxs]
    simp [hx]

theorem splitOnChar_append {c : Char} {pre rest : List Char} (h : c ∉ pre) :
    splitOnChar c (pre ++ c :: rest) = pre :: splitOnChar c rest := by
  induction pre with
  | nil =>
    simp only [List.nil_append, splitOnChar]
    cases hs : splitOnChar c rest with
    | nil => exact absurd hs (splitOnChar_ne_nil c rest)
    | cons hh tt => simp
  | cons p ps ih =>
    have hp : ¬p = c := fun he => h (he ▸ List.mem_cons_self p ps)
    have hps : c ∉ ps := fun hm => h (List.mem_cons_of_mem _ hm)
    simp only [List.cons_append, splitOnChar, List.append_eq]
    rw [ih hps]
    simp [hp]

theorem pyTranslateNewlines_of_no_cr {l : List Char} (h : '\r' ∉ l) :
    pyTranslateNewlines l = l := by
  induction l with
  | nil => rfl
  | cons x xs ih =>
    have hx : ¬x = '\r' := fun he => h (he ▸ List.mem_cons_self x xs)
    have hxs : '\r' ∉ xs := fun hm => h (List.mem_cons_of_mem _ hm)
    simp [pyTranslateNewlines, hx, ih hxs]

theorem no_cr_export (edges : List (Word × Word))
    (h : ∀ e ∈ edges, '\r' ∉ e.1 ∧ '\r' ∉ e.2) :
    '\r' ∉ export_formamentis edges := by
  induction edges with
  | nil => simp [export_formamentis]
  | cons e es ih =>
    have hshape : export_formamentis (e :: es) =
        (e.1 ++ [' ', ',', ' '] ++ e.2) ++ '\n' :: export_formamentis es := by
      simp [export_formamentis]
    rw [hshape]
    intro hm
    rcases List.mem_append.mp hm with hm | hm
    · rcases List.mem_append.mp hm with hm | hm
      · rcases List.mem_append.mp hm with hm | hm
        · exact (h e (List.mem_cons_self e es)).1 hm
        · simp at hm
      · exact (h e (List.mem_cons_self e es)).2 hm
    · rcases List.mem_cons.mp hm with hm | hm
      · simp at hm
      · exact ih (fun x hx => h x (List.mem_cons_of_mem _ hx)) hm

theorem fileLines_export (edges : List (Word × Word))
    (h : ∀ e ∈ edges, '\n' ∉ e.1 ∧ '\n' ∉ e.2)
    (hr : ∀ e ∈ edges, '\r' ∉ e.1 ∧ '\r' ∉ e.2) :
    fileLines (export_formamentis edges) =
      edges.map (fun p => p.1 ++ [' ', ',', ' '] ++ p.2) := by
  have key : splitOnChar '\n' (export_formamentis edges) =
      edges.map (fun p => p.1 ++ [' ', ',', ' '] ++ p.2) ++ [[]] := by
    induction edges with
    | nil => rfl
    | cons e es ih =>
      have hni : '\n' ∉ e.1 ++ [' ', ',', ' '] ++ e.2 := by
        have h1 := (h e (List.mem_cons_self e es)).1
        have h2 := (h e (List.mem_cons_self e es)).2
        simp only [List.mem_append]
        rintro ((hm | hm) | hm)
        · exact h1 hm
        · simp at hm
        · exact h2 hm
      have hshape : export_formamentis (e :: es) =
          (e.1 ++ [' ', ',', ' '] ++ e.2) ++ '\n' :: export_formamentis es := by
        simp [export_formamentis]
      rw [hshape, splitOnChar_append hni,
        ih (fun x hx => h x (List.mem_cons_of_mem _ hx))
          (fun x hx => hr x (List.mem_cons_of_mem _ hx))]
      rfl
  have htr : pyTranslateNewlines (export_formamentis edges) =
      export_formamentis edges :=
    pyTranslateNewlines_of_no_cr (no_cr_export edges hr)
  simp only [fileLines, htr, key]
  rw [if_pos (List.getLast?_concat _)]
  exact List.dropLast_concat

theorem dropWhile_length_le (p : Char → Bool) (l : List Char) :
    (l.dropWhile p).length ≤ l.length := by
  induction l with
  | nil => simp
  | cons x xs ih =>
    by_cases hx : p x = true
    · rw [List.dropWhile_cons_of_pos hx]
      exact Nat.le_trans ih (Nat.le_succ _)
    · rw [List.dropWhile_cons_of_neg hx]

theorem head_not_ws_of_dropWhile_eq {x : Char} {xs : List Char}
    (h : List.dropWhile pyIsWs (x :: xs) = x :: xs) : pyIsWs x = false := by
  cases hx : pyIsWs x with
  | false => rfl
  | true =>
    rw [List.dropWhile_cons_of_pos hx] at h
    have hlen := dropWhile_length_le pyIsWs xs
    rw [h] at hlen
    simp at hlen

theorem pyStrip_space_cons {b : Word} (h1 : b.dropWhile pyIsWs = b)
    (h2 : (b.reverse.dropWhile pyIsWs).reverse = b) : pyStrip (' ' :: b) = b := by
  have hd : List.dropWhile pyIsWs (' ' :: b) = b := by
    rw [List.dropWhile_cons_of_pos (by decide), h1]
  rw [pyStrip, hd, h2]

theorem pyStrip_append_space {a : Word} (h1 : a.dropWhile pyIsWs = a)
    (h2 : (a.reverse.dropWhile pyIsWs).reverse = a) : pyStrip (a ++ [' ']) = a := by
  cases ha : a with
  | nil => rfl
  | cons x xs =>
    subst ha
    have hx : pyIsWs x = false := head_not_ws_of_dropWhile_eq h1
    have hd : List.dropWhile pyIsWs (x :: xs ++ [' ']) = x :: xs ++ [' '] := by
      rw [List.cons_append, List.dropWhile_cons_of_neg (by simp [hx])]
    have h2' : (x :: xs).reverse.dropWhile pyIsWs = (x :: xs).reverse := by
      have := congrArg List.reverse h2
      simpa using this
    have hrev : ((x :: xs) ++ [' ']).reverse = ' ' :: (x :: xs).reverse := by
      simp
    rw [pyStrip, hd, hrev, List.dropWhile_cons_of_pos (by decide), h2',
      List.reverse_reverse]

theorem parseLine_export_line {a b : Word} (ha : wordOk a) (hb : wordOk b) :
    parseLine (a ++ [' ', ',', ' '] ++ b) = Option.some (a, b) := by
  obtain ⟨hac, _han, _har, ha1, ha2⟩ := ha
  obtain ⟨hbc, _hbn, _hbr, hb1, hb2⟩ := hb
  have hre : a ++ [' ', ',', ' '] ++ b = (a ++ [' ']) ++ ',' :: (' ' :: b) := by
    simp
  have hna : ',' ∉ a ++ [' '] := by
    simp only [List.mem_append]
    rintro (hm | hm)
    · exact hac hm
    · simp at hm
  have hnb : ',' ∉ ' ' :: b := by
    simp only [List.mem_cons]
    rintro (hm | hm)
    · simp at hm
    · exact hbc hm
  have hsplit : splitOnChar ',' (a ++ [' ', ',', ' '] ++ b) = [a ++ [' '], ' ' :: b] := by
    rw [hre, splitOnChar_append hna, splitOnChar_of_not_mem hnb]
  rw [parseLine, hsplit]
  show Option.some (pyStrip (a ++ [' ']), pyStrip (' ' :: b)) = Option.some (a, b)
  rw [pyStrip_append_space ha1 ha2, pyStrip_space_cons hb1 hb2]

theorem parseAll_export (edges : List (Word × Word))
    (h : ∀ e ∈ edges, wordOk e.1 ∧ wordOk e.2) :
    parseAll (edges.map (fun p => p.1 ++ [' ', ',', ' '] ++ p.2)) =
      Option.some edges := by
  induction edges with
  | nil => rfl
  | cons e es ih =>
    simp only [List.map_cons, parseAll]
    rw [parseLine_export_line (h e (List.mem_cons_self e es)).1
        (h e (List.mem_cons_self e es)).2,
      ih (fun x hx => h x (List.mem_cons_of_mem _ hx))]

theorem sortWords_perm (l : List Word) : List.Perm (sortWords l) l :=
  List.perm_insertionSort _ l

theorem sortWords_sorted (l : List Word) : List.Sorted (· ≤ ·) (sortWords l) :=
  List.sorted_insertionSort _ l

theorem import_vertex_props (edges : List (Word × Word)) :
    List.Sorted (· ≤ ·) (sortWords ((edges.flatMap edgeEndpoints).dedup)) ∧
      (sortWords ((edges.flatMap edgeEndpoints).dedup)).Nodup ∧
      ∀ v, v ∈ sortWords ((edges.flatMap edgeEndpoints).dedup) ↔
        ∃ e ∈ edges, v = e.1 ∨ v = e.2 := by
  refine ⟨sortWords_sorted _,
    (sortWords_perm _).nodup_iff.mpr (List.nodup_dedup _), ?_⟩
  intro v
  rw [(sortWords_perm _).mem_iff, List.mem_dedup, List.mem_flatMap]
  simp [edgeEndpoints]

/-- C6.  On a well-formed edge-list file (every line has exactly one comma),
`import_formamentis` returns a flat network whose edges appear in file order,
one edge per line with both endpoints stripped of surrounding whitespace, and
whose vertex collection is the sorted, deduplicated union of all edge
endpoints. -/
theorem import_formamentis_wellformed (content : List Char)
    (h : wellFormedFile content) :
    ∃ edges verts,
      import_formamentis content = Option.some ⟨FmnEdges.flat edges, verts⟩ ∧
        List.Forall₂ (fun line e => ∃ p1 p2, splitOnChar ',' line = [p1, p2] ∧
          e = (pyStrip p1, pyStrip p2)) (fileLines content) edges ∧
        List.Sorted (· ≤ ·) verts ∧ verts.Nodup ∧
        ∀ v, v ∈ verts ↔ ∃ e ∈ edges, v = e.1 ∨ v = e.2 := by
  have main : ∀ lines : List Word,
      (∀ line ∈ lines, (splitOnChar ',' line).length = 2) →
      ∃ edges, parseAll lines = Option.some edges ∧
        List.Forall₂ (fun line e => ∃ p1 p2, splitOnChar ',' line = [p1, p2] ∧
          e = (pyStrip p1, pyStrip p2)) lines edges := by
    intro lines
    induction lines with
    | nil => exact fun _ => ⟨[], rfl, List.Forall₂.nil⟩
    | cons l ls ih =>
      intro hwf
      obtain ⟨edges, he, hf⟩ := ih (fun x hx => hwf x (List.mem_cons_of_mem _ hx))
      have h2 := hwf l (List.mem_cons_self l ls)
      obtain ⟨p1, p2, hp⟩ : ∃ p1 p2, splitOnChar ',' l = [p1, p2] := by
        cases hs : splitOnChar ',' l with
        | nil => rw [hs] at h2; simp at h2
        | cons x t =>
          cases t with
          | nil => rw [hs] at h2; simp at h2
          | cons y t2 =>
            cases t2 with
            | nil => exact ⟨x, y, rfl⟩
            | cons z t3 => rw [hs] at h2; simp at h2
      have hpl : parseLine l = Option.some (pyStrip p1, pyStrip p2) := by
        rw [parseLine, hp]
      refine ⟨(pyStrip p1, pyStrip p2) :: edges, ?_, ?_⟩
      · simp only [parseAll, hpl, he]
      · exact List.Forall₂.cons ⟨p1, p2, hp, rfl⟩ hf
  obtain ⟨edges, he, hf⟩ := main (fileLines content) h
  obtain ⟨hs, hn, hm⟩ := import_vertex_props edges
  refine ⟨edges, sortWords ((edges.flatMap edgeEndpoints).dedup), ?_, hf, hs, hn, hm⟩
  rw [import_formamentis, he]

/-- Witness for `import_formamentis_wellformed` on the concrete two-line file
`"b , a\nc , a\n"`. -/
theorem import_formamentis_wellformed_witness :
    wellFormedFile ("b , a\nc , a\n".toList) ∧
      (∃ edges verts,
        import_formamentis ("b , a\nc , a\n".toList) =
            Option.some ⟨FmnEdges.flat edges, verts⟩ ∧
          List.Forall₂ (fun line e => ∃ p1 p2, splitOnChar ',' line = [p1, p2] ∧
            e = (pyStrip p1, pyStrip p2)) (fileLines ("b , a\nc , a\n".toList)) edges ∧
          List.Sorted (· ≤ ·) verts ∧ verts.Nodup ∧
          ∀ v, v ∈ verts ↔ ∃ e ∈ edges, v = e.1 ∨ v = e.2) :=
  ⟨by unfold wellFormedFile; decide,
    import_formamentis_wellformed ("b , a\nc , a\n".toList)
      (by unfold wellFormedFile; decide)⟩

/-- C5 (amended).  For a flat network whose edge words contain no comma, no
newline, no carriage return, and no leading or trailing whitespace, exporting
the edges with `export_formamentis` and importing the written file with
`import_formamentis` reproduces the same edge sequence, as ordered pairs, and
a vertex collection equal to the sorted (deduplicated) union of all edge
endpoints.  The newline/carriage-return condition is forced by
`export_import_roundtrip_counterexample`: a word with an interior newline
splits one exported edge across two file lines. -/
theorem export_import_roundtrip (edges : List (Word × Word))
    (h : ∀ e ∈ edges, wordOk e.1 ∧ wordOk e.2) :
    ∃ verts,
      import_formamentis (export_formamentis edges) =
          Option.some ⟨FmnEdges.flat edges, verts⟩ ∧
        List.Sorted (· ≤ ·) verts ∧ verts.Nodup ∧
        ∀ v, v ∈ verts ↔ ∃ e ∈ edges, v = e.1 ∨ v = e.2 := by
  have hlines : fileLines (export_formamentis edges) =
      edges.map (fun p => p.1 ++ [' ', ',', ' '] ++ p.2) :=
    fileLines_export edges (fun e he => ⟨(h e he).1.2.1, (h e he).2.2.1⟩)
      (fun e he => ⟨(h e he).1.2.2.1, (h e he).2.2.2.1⟩)
  have hparse := parseAll_export edges h
  obtain ⟨hs, hn, hm⟩ := import_vertex_props edges
  refine ⟨sortWords ((edges.flatMap edgeEndpoints).dedup), ?_, hs, hn, hm⟩
  rw [import_formamentis, hlines, hparse]

/-- Witness for `export_import_roundtrip` on the one-edge network
`[("b", "a")]`: the round trip returns the same edge and the sorted vertex
list `["a", "b"]`. -/
theorem export_import_roundtrip_witness :
    (∀ e ∈ [((['b'] : Word), (['a'] : Word))], wordOk e.1 ∧ wordOk e.2) ∧
      (∃ verts,
        import_formamentis (export_formamentis [((['b'] : Word), (['a'] : Word))]) =
            Option.some ⟨FmnEdges.flat [((['b'] : Word), (['a'] : Word))], verts⟩ ∧
          List.Sorted (· ≤ ·) verts ∧ verts.Nodup ∧
          ∀ v, v ∈ verts ↔
            ∃ e ∈ [((['b'] : Word), (['a'] : Word))], v = e.1 ∨ v = e.2) :=
  ⟨by unfold wordOk; decide,
    export_import_roundtrip [((['b'] : Word), (['a'] : Word))]
      (by unfold wordOk; decide)⟩

/-- C5 counterexample.  The round-trip claim as stated — requiring only that
the words contain no comma and no leading/trailing whitespace — is false: the
word `"a\nb"` satisfies both conditions (the newline is interior), yet
exporting the single edge `("a\nb", "c")` writes a file whose first line is
just `"a"`, so `import_formamentis` hits a line with no comma and raises
(returns no network) instead of reproducing the edge.  The word `"a\rb"`
likewise satisfies both conditions and fails the round trip, because
text-mode reading translates the bare carriage return to a newline; this
forces the carriage-return exclusion in the amended claim as well. -/
theorem export_import_roundtrip_counterexample :
    (',' ∉ (['a', '\n', 'b'] : Word)) ∧
      List.dropWhile pyIsWs (['a', '\n', 'b'] : Word) = ['a', '\n', 'b'] ∧
      (List.dropWhile pyIsWs (['a', '\n', 'b'] : Word).reverse).reverse =
        ['a', '\n', 'b'] ∧
      (',' ∉ (['c'] : Word)) ∧
      List.dropWhile pyIsWs (['c'] : Word) = ['c'] ∧
      (List.dropWhile pyIsWs (['c'] : Word).reverse).reverse = ['c'] ∧
      import_formamentis (export_formamentis [((['a', '\n', 'b'] : Word), ['c'])]) =
        Option.none ∧
      (',' ∉ (['a', '\r', 'b'] : Word)) ∧
      List.dropWhile pyIsWs (['a', '\r', 'b'] : Word) = ['a', '\r', 'b'] ∧
      (List.dropWhile pyIsWs (['a', '\r', 'b'] : Word).reverse).reverse =
        ['a', '\r', 'b'] ∧
      import_formamentis (export_formamentis [((['a', '\r', 'b'] : Word), ['c'])]) =
        Option.none := by
  decide
